import Mathlib

/-!
Verification of the text-to-record extraction engine of the
`inmobiliaria-data` repository (package `inmobiliario_scrapers`).

The Python modules embedded here are:
  * `core/utils.py`   — `clean_text`, `fix_mojibake`, `parse_money_to_float`, `parse_float`
  * `nexo/model.py`   — the `Tipologia` record
  * `nexo/parser.py`  — the `CARD_RE` grammar, `parse_card_text`, `NexoParser.parse`
  * `nexo/extract.py` — `extract_card_texts`

Strings are modelled as Lean strings (lists of unicode scalar values, as in
Python), bytes as natural numbers below 256, and Python floats as exact
rationals: every float produced by the code under verification is obtained by
parsing a short decimal digit string, and two such floats compare equal in
Python exactly when their decimal values are equal, so `ℚ` is a faithful model
of the comparisons the spec makes.  Python regular expressions are embedded by
a small backtracking matcher (below) whose candidate order reproduces the
leftmost-first, greedy/lazy preference order of CPython's `re` engine.
-/

set_option allowUnsafeReducibility true
attribute [local semireducible] Rat.add Rat.mul Rat.inv Rat.ofScientific
set_option maxRecDepth 1000000

namespace Inmobiliaria

/-- The characters Python's `str.strip()` and the `re` class `\s` treat as
whitespace (Unicode whitespace code points). -/
def isSpacePy (c : Char) : Bool :=
  (9 ≤ c.toNat && c.toNat ≤ 13) || c.toNat == 32 ||
  (28 ≤ c.toNat && c.toNat ≤ 31) || c.toNat == 0x85 || c.toNat == 0xA0 ||
  c.toNat == 0x1680 || (0x2000 ≤ c.toNat && c.toNat ≤ 0x200A) ||
  c.toNat == 0x2028 || c.toNat == 0x2029 || c.toNat == 0x202F ||
  c.toNat == 0x205F || c.toNat == 0x3000

/-- ASCII decimal digit, the model of the `re` class `\d` (the scraped pages
carry ASCII digits only). -/
def isDigitA (c : Char) : Bool := '0' ≤ c && c ≤ '9'

/-- One step of `re.sub(r"\s+", " ", s)`: every maximal whitespace run becomes
a single space.  `inWs` records whether the previous character belonged to a
whitespace run already replaced. -/
def collapseWsAux (inWs : Bool) : List Char → List Char
  | [] => []
  | c :: cs =>
    if isSpacePy c then
      if inWs then collapseWsAux true cs else ' ' :: collapseWsAux true cs
    else c :: collapseWsAux false cs

def collapseWs (l : List Char) : List Char := collapseWsAux false l

/-- Python `str.strip()`. -/
def stripPy (l : List Char) : List Char :=
  ((l.dropWhile isSpacePy).reverse.dropWhile isSpacePy).reverse

/-- `utils.clean_text`: collapse whitespace runs to one space, then strip. -/
def clean_text (s : String) : String :=
  ⟨stripPy (collapseWs s.data)⟩

/-- Python `str.encode("latin1")`: each scalar value below 256 becomes one
byte; any other character raises `UnicodeEncodeError` (modelled as `none`). -/
def encodeLatin1 : List Char → Option (List Nat)
  | [] => some []
  | c :: cs =>
    if c.toNat < 256 then (encodeLatin1 cs).map (fun bs => c.toNat :: bs)
    else none

/-- A UTF-8 continuation byte. -/
def isCont (b : Nat) : Bool := 0x80 ≤ b && b ≤ 0xBF

/-- Admissible second byte of a three-byte sequence (excludes the overlong
forms after `0xE0` and the surrogate range after `0xED`). -/
def cont3ok (b b2 : Nat) : Bool :=
  if b == 0xE0 then 0xA0 ≤ b2 && b2 ≤ 0xBF
  else if b == 0xED then 0x80 ≤ b2 && b2 ≤ 0x9F
  else isCont b2

/-- Admissible second byte of a four-byte sequence (excludes the overlong
forms after `0xF0` and values above `0x10FFFF` after `0xF4`). -/
def cont4ok (b b2 : Nat) : Bool :=
  if b == 0xF0 then 0x90 ≤ b2 && b2 ≤ 0xBF
  else if b == 0xF4 then 0x80 ≤ b2 && b2 ≤ 0x8F
  else isCont b2

/-- Scalar value of a two-byte sequence. -/
def cp2 (b b2 : Nat) : Nat := (b - 0xC0) * 64 + (b2 - 0x80)

/-- Scalar value of a three-byte sequence. -/
def cp3 (b b2 b3 : Nat) : Nat := (b - 0xE0) * 4096 + (b2 - 0x80) * 64 + (b3 - 0x80)

/-- Scalar value of a four-byte sequence. -/
def cp4 (b b2 b3 b4 : Nat) : Nat :=
  (b - 0xF0) * 262144 + (b2 - 0x80) * 4096 + (b3 - 0x80) * 64 + (b4 - 0x80)

/-- One-character-per-step UTF-8 decoding with a step budget (the budget only
serves the termination argument; a budget of one per input byte is always
sufficient because every decoded character consumes at least one byte). -/
def utf8DecodeF : Nat → List Nat → Option (List Char)
  | _, [] => some []
  | 0, _ :: _ => none
  | fuel + 1, b :: rest =>
    if b < 0x80 then (utf8DecodeF fuel rest).map (fun l => Char.ofNat b :: l)
    else if b < 0xC2 then none
    else if b ≤ 0xDF then
      match rest with
      | b2 :: r2 =>
        if isCont b2 then (utf8DecodeF fuel r2).map (fun l => Char.ofNat (cp2 b b2) :: l)
        else none
      | [] => none
    else if b ≤ 0xEF then
      match rest with
      | b2 :: b3 :: r3 =>
        if cont3ok b b2 && isCont b3 then
          (utf8DecodeF fuel r3).map (fun l => Char.ofNat (cp3 b b2 b3) :: l)
        else none
      | _ => none
    else if b ≤ 0xF4 then
      match rest with
      | b2 :: b3 :: b4 :: r4 =>
        if cont4ok b b2 && isCont b3 && isCont b4 then
          (utf8DecodeF fuel r4).map (fun l => Char.ofNat (cp4 b b2 b3 b4) :: l)
        else none
      | _ => none
    else none

/-- Python `bytes.decode("utf-8")` in strict mode: rejects overlong forms,
surrogates and values above `0x10FFFF`; `none` models `UnicodeDecodeError`. -/
def utf8Decode (l : List Nat) : Option (List Char) := utf8DecodeF l.length l

/-- `utils.fix_mojibake`: re-encode as Latin-1 and decode the bytes as UTF-8;
on any failure of that round trip return the input unchanged. -/
def fix_mojibake (s : String) : String :=
  if s = "" then s
  else
    match (encodeLatin1 s.data).bind utf8Decode with
    | some l => ⟨l⟩
    | none => s

/-- The normalization both numeric parsers and the card parser apply first:
clean whitespace, then repair mojibake. -/
def normText (s : String) : String := fix_mojibake (clean_text s)

/-- The class `[\d\.,]` used by the money/area patterns. -/
def isMoneyChar (c : Char) : Bool := isDigitA c || c == '.' || c == ','

/-- `re.search(r"(\d[\d\.,]*)", t)`: the run starting at the first digit,
greedily extended over digits, periods and commas. -/
def firstMoneyRun : List Char → Option (List Char)
  | [] => none
  | c :: cs =>
    if isDigitA c then some (c :: cs.takeWhile isMoneyChar)
    else firstMoneyRun cs

/-- Numeric value of an ASCII digit string (Python `int` on such strings). -/
def digitsVal (l : List Char) : Nat :=
  l.foldl (fun a c => a * 10 + (c.toNat - 48)) 0

/-- `utils.parse_money_to_float`.  The argument is `Optional[str]`; both
`None` and the empty string fail the `if not text` guard.  After the digit
run is found, the code strips every period and comma and calls `float` on the
remaining nonempty digit string, which cannot raise. -/
def parse_money_to_float (text : Option String) : Option ℚ :=
  match text with
  | none => none
  | some s =>
    if s = "" then none
    else
      match firstMoneyRun (normText s).data with
      | none => none
      | some run =>
        some ((digitsVal (run.filter fun c => !(c == '.') && !(c == ',')) : ℚ))

/-- The run matched by `re.search(r"(\d+[\.,]?\d*)", t)` at a position whose
head `c` is a digit: maximal digits, then an optional single separator,
then maximal digits. -/
def floatRunFrom (c : Char) (cs : List Char) : List Char :=
  let d1 := cs.takeWhile isDigitA
  match cs.drop d1.length with
  | s :: r2 =>
    if s == '.' || s == ',' then c :: d1 ++ s :: r2.takeWhile isDigitA
    else c :: d1
  | [] => c :: d1

/-- `re.search(r"(\d+[\.,]?\d*)", t)`: leftmost match (which necessarily
starts at the first digit of the text). -/
def firstFloatRun : List Char → Option (List Char)
  | [] => none
  | c :: cs =>
    if isDigitA c then some (floatRunFrom c cs)
    else firstFloatRun cs

/-- Python `float` on the normalized separator-free strings produced by
`parse_float`: optional integer digits, an optional period, optional
fractional digits, at least one digit in total. -/
def decimalToRat (l : List Char) : Option ℚ :=
  match l.drop (l.takeWhile isDigitA).length with
  | [] =>
    if (l.takeWhile isDigitA).isEmpty then none
    else some ((digitsVal (l.takeWhile isDigitA) : ℚ))
  | s :: fr =>
    if s == '.' && fr.all isDigitA && !((l.takeWhile isDigitA).isEmpty && fr.isEmpty) then
      some ((digitsVal (l.takeWhile isDigitA) : ℚ) + (digitsVal fr : ℚ) / ((10 : ℚ) ^ fr.length))
    else none

/-- `utils.parse_float`: find the first `\d+[\.,]?\d*` run; if it has a comma
and no period the comma becomes the decimal point, otherwise commas are
stripped; then parse as a float. -/
def parse_float (text : Option String) : Option ℚ :=
  match text with
  | none => none
  | some s =>
    if s = "" then none
    else
      match firstFloatRun (normText s).data with
      | none => none
      | some run =>
        decimalToRat
          (if run.contains ',' && !(run.contains '.') then
            run.map (fun c => if c == ',' then '.' else c)
          else run.filter (fun c => !(c == ',')))

/-! ## A backtracking matcher for the fixed grammars of `nexo/parser.py`

Every repetition in `CARD_RE` (and in the page-level price pattern) ranges
over a single-character class, so repetitions are modelled by the number of
class characters consumed.  The matcher is written in continuation-passing
style; the order in which candidates are offered to the continuation is
exactly CPython's backtracking order: alternatives left to right, greedy
quantifiers longest first, lazy quantifiers shortest first, the first
complete match winning. -/

/-- Python `re.IGNORECASE` case folding, restricted to the Latin-1 letters
appearing in the grammars (ASCII letters and the accented Latin-1 letters,
whose lowercase forms sit 32 code points higher). -/
def pyLower (c : Char) : Char :=
  let n := c.toNat
  if (65 ≤ n && n ≤ 90) || ((192 ≤ n && n ≤ 222) && !(n == 215)) then Char.ofNat (n + 32)
  else c

/-- Case-insensitive character comparison (`re.IGNORECASE`). -/
def charIEq (a b : Char) : Bool := pyLower a == pyLower b

/-- Regular expressions over single-character classes: literals (matched
case-insensitively), concatenation, alternation, greedy option, greedy and
lazy star/plus of a class, and numbered capturing groups. -/
inductive RE where
  | lit : List Char → RE
  | cat : RE → RE → RE
  | alt : RE → RE → RE
  | opt : RE → RE
  | starG : (Char → Bool) → RE
  | starL : (Char → Bool) → RE
  | plusG : (Char → Bool) → RE
  | plusL : (Char → Bool) → RE
  | grp : Nat → RE → RE

/-- Captured groups: group number paired with the captured characters; an
entry earlier in the list supersedes later ones. -/
abbrev Caps := List (Nat × List Char)

def setCap (caps : Caps) (n : Nat) (v : List Char) : Caps := (n, v) :: caps

def getCap (caps : Caps) (n : Nat) : Option (List Char) :=
  (caps.find? (fun p => p.1 == n)).map (fun p => p.2)

/-- Match a literal case-insensitively against a prefix of the input,
returning the rest. -/
def stripLit : List Char → List Char → Option (List Char)
  | [], cs => some cs
  | _ :: _, [] => none
  | p :: ps, c :: cs => if charIEq p c then stripLit ps cs else none

/-- Length of the maximal run of class characters at the head of the input. -/
def runLen (p : Char → Bool) : List Char → Nat
  | [] => 0
  | c :: cs => if p c then runLen p cs + 1 else 0

/-- Try the continuation on each candidate count in order. -/
def firstSome (f : Nat → Option Caps) : List Nat → Option Caps
  | [] => none
  | n :: ns =>
    match f n with
    | some r => some r
    | none => firstSome f ns

/-- The matcher.  `matchRE r cs caps k` matches `r` against a prefix of `cs`
and passes the rest of the input and the updated captures to `k`, trying
candidates in CPython's preference order until `k` succeeds. -/
def matchRE : RE → List Char → Caps → (List Char → Caps → Option Caps) → Option Caps
  | .lit p, cs, caps, k =>
    match stripLit p cs with
    | some rest => k rest caps
    | none => none
  | .cat a b, cs, caps, k => matchRE a cs caps (fun cs2 caps2 => matchRE b cs2 caps2 k)
  | .alt a b, cs, caps, k =>
    match matchRE a cs caps k with
    | some r => some r
    | none => matchRE b cs caps k
  | .opt a, cs, caps, k =>
    match matchRE a cs caps k with
    | some r => some r
    | none => k cs caps
  | .starG p, cs, caps, k =>
    firstSome (fun i => k (cs.drop i) caps) (List.range (runLen p cs + 1)).reverse
  | .starL p, cs, caps, k =>
    firstSome (fun i => k (cs.drop i) caps) (List.range (runLen p cs + 1))
  | .plusG p, cs, caps, k =>
    firstSome (fun i => k (cs.drop i) caps) ((List.range (runLen p cs)).map (fun i => i + 1)).reverse
  | .plusL p, cs, caps, k =>
    firstSome (fun i => k (cs.drop i) caps) ((List.range (runLen p cs)).map (fun i => i + 1))
  | .grp n a, cs, caps, k =>
    matchRE a cs caps (fun rest caps2 => k rest (setCap caps2 n (cs.take (cs.length - rest.length))))

/-- `pattern.search(text)`: try a match at each start position from the left;
the captures of the first successful position win. -/
def reSearch (r : RE) : List Char → Option Caps
  | [] => matchRE r [] [] (fun _ caps => some caps)
  | c :: rest =>
    match matchRE r (c :: rest) [] (fun _ caps => some caps) with
    | some caps => some caps
    | none => reSearch r rest

/-! ## The card grammar `CARD_RE` -/

/-- The class `.` under `re.DOTALL`. -/
def anyCh : Char → Bool := fun _ => true

/-- The class `[A-Za-z0-9\-_]` of the model-code group. -/
def isModeloChar (c : Char) : Bool :=
  ('A' ≤ c && c ≤ 'Z') || ('a' ≤ c && c ≤ 'z') || isDigitA c || c == '-' || c == '_'

def catList : List RE → RE
  | [] => RE.lit []
  | [r] => r
  | r :: rs => RE.cat r (catList rs)

def litS (s : String) : RE := RE.lit s.data

def wsStar : RE := RE.starG isSpacePy
def wsPlus : RE := RE.plusG isSpacePy
def gapL : RE := RE.starL anyCh

/-- Group numbers of `CARD_RE` in order of appearance (the Python pattern
names them `prefix`, `proyecto`, `unidades`, `moneda`, `precio`, `modelo`,
`area`, `piso_min`, `piso_max`, `dorms`, `banos`). -/
def gPlano : Nat := 1
def gProyecto : Nat := 2
def gUnidades : Nat := 3
def gMoneda : Nat := 4
def gPrecio : Nat := 5
def gModelo : Nat := 6
def gArea : Nat := 7
def gPisoMin : Nat := 8
def gPisoMax : Nat := 9
def gDorms : Nat := 10
def gBanos : Nat := 11

/-- `parser.CARD_RE`, transcribed clause by clause from the verbose pattern
(`re.IGNORECASE | re.VERBOSE | re.DOTALL`). -/
def CARD_RE : RE := catList [
  RE.opt (RE.grp gPlano (litS "Plano")),
  wsStar,
  RE.grp gProyecto (RE.plusL anyCh),
  wsStar,
  RE.grp gUnidades (RE.plusG isDigitA),
  wsPlus, litS "unidad", RE.opt (litS "es"), wsPlus, litS "disponible", RE.opt (litS "s"), wsStar,
  gapL, litS "Desde", wsStar,
  RE.grp gMoneda (RE.alt (litS "S/") (litS "US$")), wsStar,
  RE.grp gPrecio (RE.plusG isMoneyChar), wsStar,
  gapL, litS "Modelo", wsStar,
  RE.grp gModelo (RE.plusG isModeloChar), wsStar,
  gapL, RE.grp gArea (RE.plusG isMoneyChar), wsStar,
  litS "m", RE.alt (litS "²") (RE.alt (litS "2") (litS "Â²")), wsStar,
  gapL, litS "Piso", RE.opt (litS "s"), wsStar,
  RE.grp gPisoMin (RE.plusG isDigitA),
  RE.opt (catList [wsStar, litS "al", wsStar, RE.grp gPisoMax (RE.plusG isDigitA)]), wsStar,
  gapL, RE.grp gDorms (RE.plusG isDigitA), wsStar, litS "dorm", RE.opt (litS "s"), wsStar,
  gapL, RE.grp gBanos (RE.plusG isDigitA), wsStar, litS "bañ",
  RE.alt (litS "o") (RE.alt (litS "os") (RE.alt (litS "Ã±o") (litS "Ã±os"))), wsStar]

/-! ## The `Tipologia` record and `parse_card_text` -/

/-- `model.Tipologia`.  Prices and areas are exact rationals (see the header
note); counts are naturals, as Python's `int` applied to `\d+` matches. -/
structure Tipologia where
  modelo : String
  area_m2 : Option ℚ
  precio_desde : Option ℚ
  moneda : Option String
  unidades_disponibles : Option Nat
  piso_min : Option Nat
  piso_max : Option Nat
  dormitorios : Option Nat
  banos : Option Nat
  raw : Option String := none
  parse_ok : Bool := true
deriving DecidableEq

/-- Rendering of an optional group in a Python f-string: `None` prints as
the four characters `None`. -/
def strOfGroup : Option (List Char) → String
  | some l => ⟨l⟩
  | none => "None"

/-- `parser.parse_card_text`. -/
def parse_card_text (txt : String) : Tipologia :=
  match reSearch CARD_RE (normText txt).data with
  | none =>
    { modelo := ""
      area_m2 := parse_float (some (normText txt))
      precio_desde := parse_money_to_float (some (normText txt))
      moneda := none
      unidades_disponibles := none
      piso_min := none
      piso_max := none
      dormitorios := none
      banos := none
      raw := some (normText txt)
      parse_ok := false }
  | some g =>
    { modelo := ⟨(getCap g gModelo).getD []⟩
      area_m2 := parse_float ((getCap g gArea).map (fun l => (⟨l⟩ : String)))
      precio_desde := parse_money_to_float
        (some (strOfGroup (getCap g gMoneda) ++ " " ++ strOfGroup (getCap g gPrecio)))
      moneda := (getCap g gMoneda).map (fun l => (⟨l⟩ : String))
      unidades_disponibles := (getCap g gUnidades).map digitsVal
      piso_min := (getCap g gPisoMin).map digitsVal
      piso_max :=
        match getCap g gPisoMax with
        | some l => some (digitsVal l)
        | none => (getCap g gPisoMin).map digitsVal
      dormitorios := (getCap g gDorms).map digitsVal
      banos := (getCap g gBanos).map digitsVal
      raw := some (normText txt)
      parse_ok := true }

/-- Unfolding lemma for the fallback branch of `parse_card_text`. -/
lemma parse_card_text_of_none {txt : String}
    (h : reSearch CARD_RE (normText txt).data = none) :
    parse_card_text txt =
      { modelo := ""
        area_m2 := parse_float (some (normText txt))
        precio_desde := parse_money_to_float (some (normText txt))
        moneda := none
        unidades_disponibles := none
        piso_min := none
        piso_max := none
        dormitorios := none
        banos := none
        raw := some (normText txt)
        parse_ok := false } := by
  unfold parse_card_text
  rw [h]

/-- Unfolding lemma for the full-match branch of `parse_card_text`. -/
lemma parse_card_text_of_some {txt : String} {g : Caps}
    (h : reSearch CARD_RE (normText txt).data = some g) :
    parse_card_text txt =
      { modelo := ⟨(getCap g gModelo).getD []⟩
        area_m2 := parse_float ((getCap g gArea).map (fun l => (⟨l⟩ : String)))
        precio_desde := parse_money_to_float
          (some (strOfGroup (getCap g gMoneda) ++ " " ++ strOfGroup (getCap g gPrecio)))
        moneda := (getCap g gMoneda).map (fun l => (⟨l⟩ : String))
        unidades_disponibles := (getCap g gUnidades).map digitsVal
        piso_min := (getCap g gPisoMin).map digitsVal
        piso_max :=
          match getCap g gPisoMax with
          | some l => some (digitsVal l)
          | none => (getCap g gPisoMin).map digitsVal
        dormitorios := (getCap g gDorms).map digitsVal
        banos := (getCap g gBanos).map digitsVal
        raw := some (normText txt)
        parse_ok := true } := by
  unfold parse_card_text
  rw [h]

/-! ## `extract.extract_card_texts`

The HTML document itself stays outside the embedding: a page is represented
by the two views `extract_card_texts` consumes — the list of
whitespace-joined element texts each CSS selector yields, and the joined
texts of every generic container tag (`div`, `section`, `article`, `li`) in
document order. -/

structure ExtractPage where
  select : String → List String
  containers : List String

/-- The prioritized structural selectors tried first. -/
def cardSelectors : List String :=
  [".modelo-card", ".model-card", "[data-testid=\x27model-card\x27]", ".card-modelo", ".card"]

/-- Contiguous-substring test on character lists. -/
def isSubOf (needle : List Char) : List Char → Bool
  | [] => needle.isEmpty
  | c :: cs => needle.isPrefixOf (c :: cs) || isSubOf needle cs

/-- Python `needle in haystack` on strings. -/
def subStr (needle hay : String) : Bool := isSubOf needle.data hay.data

/-- The fallback keyword filter: the block text mentions a model, a starting
price, and a (possibly mojibake-corrupted) measurement unit. -/
def cardKeyword (txt : String) : Bool :=
  subStr "Modelo" txt && subStr "Desde" txt &&
    (subStr "m" txt || subStr "m²" txt || subStr "mÂ²" txt)

/-- The selector loop: the first selector yielding at least two elements
wins (`if cards and len(cards) >= 2`). -/
def firstSelTexts (page : ExtractPage) : List String → Option (List String)
  | [] => none
  | sel :: rest =>
    let cards := page.select sel
    if cards ≠ [] ∧ 2 ≤ cards.length then some cards else firstSelTexts page rest

/-- Order-preserving removal of exact duplicates (the `seen` set plus `out`
list loop at the end of `extract_card_texts`). -/
def dedupeKeep (seen : List String) : List String → List String
  | [] => []
  | b :: bs =>
    if seen.contains b then dedupeKeep seen bs
    else b :: dedupeKeep (b :: seen) bs

/-- `extract.extract_card_texts`. -/
def extract_card_texts (page : ExtractPage) : List String :=
  match firstSelTexts page cardSelectors with
  | some texts => texts
  | none =>
    let blocks := page.containers.filter (fun txt => !(txt == "") && cardKeyword txt)
    dedupeKeep [] blocks

/-! ## `NexoParser.parse` -/

/-- `core.exceptions.ParseError`, carrying its message. -/
structure ParseError where
  msg : String
deriving DecidableEq

/-- `model.Proyecto`. -/
structure Proyecto where
  nombre : Option String
  direccion : Option String
  precio_desde : Option ℚ
  moneda : Option String
  tipologias : List Tipologia

/-- Abstract view of one `NexoParser` instance.  `selectOneText sel` models
`soup.select_one(sel)` followed by `get_text(" ", strip=True)`; `pageText`
models `soup.get_text(" ", strip=True)` on the whole page; `cardTexts`
models `extract_card_texts(self.html)`.  Each operation may fail with an
exception message, since the selector engine lives outside the embedding;
`Except` carries the exception flow of the `try` block. -/
structure PageOps where
  selectOneText : String → Except String (Option String)
  pageText : Except String String
  cardTexts : Except String (List String)

/-- `parser._find_first_text`: first selector whose element exists wins; an
exception from the selector engine propagates. -/
def findFirstText (ops : PageOps) : List String → Except String (Option String)
  | [] => .ok none
  | sel :: rest =>
    match ops.selectOneText sel with
    | .ok (some t) => .ok (some t)
    | .ok none => findFirstText ops rest
    | .error e => .error e

/-- The page-level pattern `Desde\s*(S\/|US\$)\s*([\d\.,]+)` (IGNORECASE). -/
def DESDE_RE : RE := catList [
  litS "Desde", wsStar,
  RE.grp 1 (RE.alt (litS "S/") (litS "US$")), wsStar,
  RE.grp 2 (RE.plusG isMoneyChar)]

/-- The page-level price fields: first `Desde` match over the whole visible
text (`(moneda, precio_desde)`, both unset if no match). -/
def desdePrice (full_text : String) : Option String × Option ℚ :=
  match reSearch DESDE_RE full_text.data with
  | some g =>
    ((getCap g 1).map (fun l => (⟨l⟩ : String)),
      parse_money_to_float
        (some (strOfGroup (getCap g 1) ++ " " ++ strOfGroup (getCap g 2))))
  | none => (none, none)

/-- The body of the `try` block of `NexoParser.parse`: name, address, the
page-level price scan and the card extraction in the source order; any
failing sub-operation's exception propagates out. -/
def nexoParseBody (ops : PageOps) : Except String Proyecto :=
  match findFirstText ops ["h1", "h1 span", ".project-title", ".titulo"] with
  | .error e => .error e
  | .ok nombre0 =>
    match findFirstText ops
        ["[data-testid=\x27project-address\x27]", ".direccion", ".address", ".project-address"] with
    | .error e => .error e
    | .ok direccion0 =>
      match ops.pageText with
      | .error e => .error e
      | .ok fullText0 =>
        match ops.cardTexts with
        | .error e => .error e
        | .ok card_texts =>
          .ok { nombre := nombre0.map (fun n => normText n)
                direccion := direccion0.map (fun d => normText d)
                precio_desde := (desdePrice (normText fullText0)).2
                moneda := (desdePrice (normText fullText0)).1
                tipologias := card_texts.map parse_card_text }

/-- `NexoParser.parse`: the body, with every escaping exception wrapped into
a single `ParseError` whose message embeds the original message. -/
def nexoParse (ops : PageOps) : Except ParseError Proyecto :=
  match nexoParseBody ops with
  | .ok p => .ok p
  | .error e => .error ⟨"Error parsing Nexo: " ++ e⟩

/-! ## Helper lemmas -/

lemma firstMoneyRun_characterization (l : List Char) :
    firstMoneyRun l =
      match l.dropWhile (fun c => !(isDigitA c)) with
      | [] => none
      | c :: cs => some (c :: cs.takeWhile isMoneyChar) := by
  induction l with
  | nil => rfl
  | cons c cs ih =>
    by_cases hc : isDigitA c
    · simp [firstMoneyRun, List.dropWhile, hc]
    · simp only [firstMoneyRun, hc, if_false, ih, List.dropWhile]
      simp [hc]

lemma firstMoneyRun_eq_none (l : List Char) (h : ∀ c ∈ l, isDigitA c = false) :
    firstMoneyRun l = none := by
  induction l with
  | nil => rfl
  | cons c cs ih =>
    have hc := h c (by simp)
    simp only [firstMoneyRun, hc, if_false]
    exact ih (fun x hx => h x (by simp [hx]))

/-- Claim C4: `parse_money_to_float` returns `none` on an absent or empty
input and on normalized text with no digit; otherwise it locates the first
contiguous run starting at a digit and greedily extending over digits,
periods and commas, strips every period and comma, and returns the remaining
digits as an integer-valued (denominator-one) rational; on the money text
`Desde S/ 327,550` it returns `327550`. -/
theorem claim_C4_parse_money (s : String) :
    parse_money_to_float none = none ∧
    parse_money_to_float (some "") = none ∧
    ((∀ c ∈ (normText s).data, isDigitA c = false) →
      parse_money_to_float (some s) = none) ∧
    (∀ l : List Char, firstMoneyRun l =
      match l.dropWhile (fun c => !(isDigitA c)) with
      | [] => none
      | c :: cs => some (c :: cs.takeWhile isMoneyChar)) ∧
    (∀ run : List Char, s ≠ "" →
      firstMoneyRun (normText s).data = some run →
      parse_money_to_float (some s) =
        some ((digitsVal (run.filter (fun c => !(c == '.') && !(c == ','))) : ℚ))) ∧
    (∀ v : ℚ, parse_money_to_float (some s) = some v → v.den = 1 ∧ 0 ≤ v) ∧
    parse_money_to_float (some "Desde S/ 327,550") = some 327550 := by
  refine ⟨rfl, rfl, ?_, firstMoneyRun_characterization, ?_, ?_, by decide⟩
  · intro h
    by_cases hs : s = ""
    · subst hs; rfl
    · simp only [parse_money_to_float, hs, if_false]
      rw [
        firstMoneyRun_eq_none _ h]
  · intro run hs hrun
    simp only [parse_money_to_float, hs, if_false]
    rw [ hrun]
  · intro v hv
    by_cases hs : s = ""
    · subst hs; simp [parse_money_to_float] at hv
    · simp only [parse_money_to_float, hs, if_false] at hv
      rcases hmr : firstMoneyRun (normText s).data with _ | run
      · rw [hmr] at hv; exact absurd hv (by simp)
      · rw [hmr] at hv
        simp only [Option.some_inj] at hv
        subst hv
        constructor
        · exact Rat.den_natCast _
        · exact_mod_cast Nat.zero_le _

/-- Witness for claim C4 at a concrete digit-free input. -/
theorem claim_C4_parse_money_witness :
    parse_money_to_float (some "sin datos") = none :=
  (claim_C4_parse_money "sin datos").2.2.1 (by decide)

lemma takeWhile_of_all {p : Char → Bool} : ∀ l : List Char, (∀ c ∈ l, p c) →
    l.takeWhile p = l
  | [], _ => rfl
  | c :: cs, h => by
    have hc : p c := h c (by simp)
    simp only [List.takeWhile_cons, hc, if_true]
    rw [takeWhile_of_all cs (fun x hx => h x (by simp [hx]))]

lemma takeWhile_append_not {p : Char → Bool} : ∀ (d1 : List Char) (x : Char) (rest : List Char),
    (∀ c ∈ d1, p c) → p x = false →
    (d1 ++ x :: rest).takeWhile p = d1
  | [], x, rest, _, hx => by simp [List.takeWhile_cons, hx]
  | c :: cs, x, rest, h, hx => by
    have hc : p c := h c (by simp)
    simp only [List.cons_append, List.takeWhile_cons, hc, if_true]
    rw [takeWhile_append_not cs x rest (fun a ha => h a (by simp [ha])) hx]

lemma decimalToRat_digits (d : List Char) (hd : ∀ c ∈ d, isDigitA c) (hne : d ≠ []) :
    decimalToRat d = some ((digitsVal d : ℚ)) := by
  unfold decimalToRat
  rw [takeWhile_of_all d hd]
  simp [List.drop_length, List.isEmpty_iff, hne]

lemma decimalToRat_point (d1 d2 : List Char)
    (h1 : ∀ c ∈ d1, isDigitA c) (h2 : ∀ c ∈ d2, isDigitA c) (hne : d1 ≠ []) :
    decimalToRat (d1 ++ '.' :: d2) =
      some ((digitsVal d1 : ℚ) + (digitsVal d2 : ℚ) / 10 ^ d2.length) := by
  have hdot : isDigitA '.' = false := rfl
  have htw := takeWhile_append_not d1 '.' d2 h1 hdot
  have hdrop : (d1 ++ '.' :: d2).drop d1.length = '.' :: d2 := List.drop_left d1 ('.' :: d2)
  unfold decimalToRat
  simp only [htw, hdrop]
  have hall : d2.all isDigitA := List.all_eq_true.mpr (fun x hx => h2 x hx)
  simp [hall, List.isEmpty_iff, hne]

lemma firstFloatRun_characterization (l : List Char) :
    firstFloatRun l =
      match l.dropWhile (fun c => !(isDigitA c)) with
      | [] => none
      | c :: cs => some (floatRunFrom c cs) := by
  induction l with
  | nil => rfl
  | cons c cs ih =>
    by_cases hc : isDigitA c
    · simp [firstFloatRun, List.dropWhile, hc]
    · simp only [firstFloatRun, hc, if_false, ih, List.dropWhile]
      simp [hc]

lemma firstFloatRun_eq_none (l : List Char) (h : ∀ c ∈ l, isDigitA c = false) :
    firstFloatRun l = none := by
  induction l with
  | nil => rfl
  | cons c cs ih =>
    have hc := h c (by simp)
    simp only [firstFloatRun, hc, if_false]
    exact ih (fun x hx => h x (by simp [hx]))

lemma floatRunFrom_shape (c : Char) (cs : List Char) :
    (floatRunFrom c cs = c :: cs.takeWhile isDigitA) ∨
    (∃ s2 d2, (s2 = '.' ∨ s2 = ',') ∧
      floatRunFrom c cs = (c :: cs.takeWhile isDigitA) ++ s2 :: d2 ∧
      ∀ x ∈ d2, isDigitA x) := by
  unfold floatRunFrom
  rcases h : cs.drop (cs.takeWhile isDigitA).length with _ | ⟨s2, r2⟩
  · left
    simp only [h]
  · by_cases hs : (s2 == '.' || s2 == ',') = true
    · right
      refine ⟨s2, r2.takeWhile isDigitA, ?_, ?_, fun x hx => List.mem_takeWhile_imp hx⟩
      · rw [Bool.or_eq_true] at hs
        rcases hs with h1 | h1
        · exact Or.inl (eq_of_beq h1)
        · exact Or.inr (eq_of_beq h1)
      · simp only [h, hs, if_true, List.cons_append]
    · left
      simp [h, hs]

lemma contains_eq_false_of (l : List Char) (x : Char) (h : ∀ c ∈ l, ¬ c = x) :
    l.contains x = false := by
  induction l with
  | nil => rfl
  | cons c cs ih =>
    have hc : ¬ c = x := h c (by simp)
    have : (x == c) = false := beq_eq_false_iff_ne.mpr (fun hq => hc hq.symm)
    simp only [List.contains_cons, this, Bool.false_or]
    exact ih (fun a ha => h a (by simp [ha]))

lemma contains_eq_true_of (l : List Char) (x : Char) (h : x ∈ l) :
    l.contains x = true :=
  List.elem_eq_true_of_mem h

/-- Claim C5: `parse_float` returns `none` on absent/empty input and on
digit-free normalized text; it locates the first run of digits optionally
followed by one period or comma and more digits; a comma with no period is
read as the decimal separator, otherwise commas are stripped and the period
kept, yielding the decimal value; in particular `57.04 m²` parses to `57.04`
and `44,63 m²` parses to `44.63`. -/
theorem claim_C5_parse_float (s : String) :
    parse_float none = none ∧
    parse_float (some "") = none ∧
    ((∀ c ∈ (normText s).data, isDigitA c = false) → parse_float (some s) = none) ∧
    (∀ l : List Char, firstFloatRun l =
      match l.dropWhile (fun c => !(isDigitA c)) with
      | [] => none
      | c :: cs => some (floatRunFrom c cs)) ∧
    (∀ (c : Char) (cs : List Char),
      (floatRunFrom c cs = c :: cs.takeWhile isDigitA) ∨
      (∃ s2 d2, (s2 = '.' ∨ s2 = ',') ∧
        floatRunFrom c cs = (c :: cs.takeWhile isDigitA) ++ s2 :: d2 ∧
        ∀ x ∈ d2, isDigitA x)) ∧
    (∀ (run d1 d2 : List Char), s ≠ "" →
      firstFloatRun (normText s).data = some run →
      (∀ c ∈ d1, isDigitA c) → (∀ c ∈ d2, isDigitA c) → d1 ≠ [] →
      (run = d1 ++ ',' :: d2 →
        parse_float (some s) =
          some ((digitsVal d1 : ℚ) + (digitsVal d2 : ℚ) / 10 ^ d2.length)) ∧
      (run = d1 ++ '.' :: d2 →
        parse_float (some s) =
          some ((digitsVal d1 : ℚ) + (digitsVal d2 : ℚ) / 10 ^ d2.length)) ∧
      (run = d1 → parse_float (some s) = some ((digitsVal d1 : ℚ)))) ∧
    parse_float (some "57.04 m²") = some (5704 / 100) ∧
    parse_float (some "44,63 m²") = some (4463 / 100) := by
  refine ⟨rfl, rfl, ?_, firstFloatRun_characterization, floatRunFrom_shape, ?_,
    by decide, by decide⟩
  · intro h
    by_cases hs : s = ""
    · subst hs; rfl
    · simp only [parse_float, hs, if_false]
      rw [
        firstFloatRun_eq_none _ h]
  · intro run d1 d2 hs hrun hd1 hd2 hne
    have hfact : ∀ raw : List Char, raw = run →
        parse_float (some s) = decimalToRat
          (if raw.contains ',' && !(raw.contains '.') then
            raw.map (fun c => if c == ',' then '.' else c)
          else raw.filter (fun c => !(c == ','))) := by
      intro raw hraw
      subst hraw
      simp only [parse_float, hs, if_false]
      rw [ hrun]
    refine ⟨?_, ?_, ?_⟩
    · intro heq
      rw [hfact run rfl, heq]
      have hcomma : (d1 ++ ',' :: d2).contains ',' = true :=
        contains_eq_true_of _ _ (by simp)
      have hdot : (d1 ++ ',' :: d2).contains '.' = false := by
        refine contains_eq_false_of _ _ (fun c hc => ?_)
        rcases List.mem_append.mp hc with h1 | h1
        · intro hcd; subst hcd; exact absurd (hd1 _ h1) (by decide)
        · rcases List.mem_cons.mp h1 with h2 | h2
          · intro hcd; rw [hcd] at h2; exact absurd h2 (by decide)
          · intro hcd; subst hcd; exact absurd (hd2 _ h2) (by decide)
      rw [hcomma, hdot]
      simp only [Bool.not_false, Bool.and_self, if_true, List.map_append, List.map_cons]
      have hmap1 : d1.map (fun c => if c == ',' then '.' else c) = d1 := by
        rw [List.map_congr_left (g := id) ?_, List.map_id]
        intro a ha
        have : ¬ a = ',' := fun hq => absurd (hd1 _ (hq ▸ ha)) (by decide)
        simp [beq_eq_false_iff_ne.mpr this]
      have hmap2 : d2.map (fun c => if c == ',' then '.' else c) = d2 := by
        rw [List.map_congr_left (g := id) ?_, List.map_id]
        intro a ha
        have : ¬ a = ',' := fun hq => absurd (hd2 _ (hq ▸ ha)) (by decide)
        simp [beq_eq_false_iff_ne.mpr this]
      rw [hmap1, hmap2]
      simp only [show ((',' : Char) == ',') = true from rfl, if_true]
      exact decimalToRat_point d1 d2 hd1 hd2 hne
    · intro heq
      rw [hfact run rfl, heq]
      have hdot : (d1 ++ '.' :: d2).contains '.' = true :=
        contains_eq_true_of _ _ (by simp)
      rw [hdot]
      simp only [Bool.not_true, Bool.and_false, if_false]
      have hfilter : (d1 ++ '.' :: d2).filter (fun c => !(c == ',')) = d1 ++ '.' :: d2 := by
        refine List.filter_eq_self.mpr (fun a ha => ?_)
        rcases List.mem_append.mp ha with h1 | h1
        · have : ¬ a = ',' := fun hq => absurd (hd1 _ (hq ▸ h1)) (by decide)
          simp [beq_eq_false_iff_ne.mpr this]
        · rcases List.mem_cons.mp h1 with h2 | h2
          · subst h2; decide
          · have : ¬ a = ',' := fun hq => absurd (hd2 _ (hq ▸ h2)) (by decide)
            simp [beq_eq_false_iff_ne.mpr this]
      rw [hfilter]
      exact decimalToRat_point d1 d2 hd1 hd2 hne
    · intro heq
      rw [hfact run rfl, heq]
      have hcomma : d1.contains ',' = false := by
        refine contains_eq_false_of _ _ (fun c hc hcd => ?_)
        subst hcd; exact absurd (hd1 _ hc) (by decide)
      rw [hcomma]
      simp only [Bool.false_and, if_false]
      have hfilter : d1.filter (fun c => !(c == ',')) = d1 := by
        refine List.filter_eq_self.mpr (fun a ha => ?_)
        have : ¬ a = ',' := fun hq => absurd (hd1 _ (hq ▸ ha)) (by decide)
        simp [beq_eq_false_iff_ne.mpr this]
      rw [hfilter]
      exact decimalToRat_digits d1 hd1 hne

/-- Witness for claim C5 at a concrete digit-free input. -/
theorem claim_C5_parse_float_witness :
    parse_float (some "sin area") = none :=
  (claim_C5_parse_float "sin area").2.2.1 (by decide)

/-- Claim C6: when the Latin-1 re-encode / UTF-8 decode round trip fails,
`fix_mojibake` returns its input unchanged (it never raises), so on
already-correct text whose round trip fails it is the identity. -/
theorem claim_C6_fix_mojibake_failure_identity (s : String)
    (h : (encodeLatin1 s.data).bind utf8Decode = none) :
    fix_mojibake s = s ∧ fix_mojibake (fix_mojibake s) = fix_mojibake s := by
  have h1 : fix_mojibake s = s := by
    unfold fix_mojibake
    by_cases hs : s = ""
    · simp [hs]
    · simp [hs, h]
  exact ⟨h1, by rw [h1, h1]⟩

/-- Witness for claim C6 on correctly-encoded accented text. -/
theorem claim_C6_witness :
    (encodeLatin1 (String.data "Nápoles")).bind utf8Decode = none ∧
      fix_mojibake "Nápoles" = "Nápoles" :=
  ⟨by decide, (claim_C6_fix_mojibake_failure_identity "Nápoles" (by decide)).1⟩

lemma decimalToRat_nonneg (l : List Char) (q : ℚ) (h : decimalToRat l = some q) :
    0 ≤ q := by
  unfold decimalToRat at h
  split at h
  · split at h
    · exact absurd h (by simp)
    · obtain rfl := Option.some_inj.mp h
      exact_mod_cast Nat.zero_le _
  · split at h
    · obtain rfl := Option.some_inj.mp h
      positivity
    · exact absurd h (by simp)

lemma parse_money_nonneg (t : Option String) (v : ℚ)
    (h : parse_money_to_float t = some v) : 0 ≤ v := by
  unfold parse_money_to_float at h
  repeat' split at h
  all_goals first
    | (obtain rfl := Option.some_inj.mp h; exact_mod_cast Nat.zero_le _)
    | exact absurd h (by simp)

lemma parse_float_nonneg (t : Option String) (v : ℚ)
    (h : parse_float t = some v) : 0 ≤ v := by
  unfold parse_float at h
  repeat' split at h
  all_goals first
    | exact decimalToRat_nonneg _ _ h
    | exact absurd h (by simp)

/-- Claim C10: whenever `parse_money_to_float` or `parse_float` returns a
value it is non-negative — both match an unsigned digit run and ignore a
preceding minus sign (the text `-5.2` parses to `5.2`) — so the area and
starting price of any parsed `Tipologia`, when set, are never negative. -/
theorem claim_C10_nonneg :
    (∀ (t : Option String) (v : ℚ), parse_money_to_float t = some v → 0 ≤ v) ∧
    (∀ (t : Option String) (v : ℚ), parse_float t = some v → 0 ≤ v) ∧
    parse_float (some "-5.2") = some (26 / 5) ∧
    (∀ (txt : String) (v : ℚ), (parse_card_text txt).area_m2 = some v → 0 ≤ v) ∧
    (∀ (txt : String) (v : ℚ), (parse_card_text txt).precio_desde = some v → 0 ≤ v) := by
  refine ⟨parse_money_nonneg, parse_float_nonneg, by decide, ?_, ?_⟩
  · intro txt v h
    unfold parse_card_text at h
    split at h <;> dsimp only at h <;> exact parse_float_nonneg _ _ h
  · intro txt v h
    unfold parse_card_text at h
    split at h <;> dsimp only at h <;> exact parse_money_nonneg _ _ h

/-- Witness for claim C10 at the sign-bearing input `-5.2`. -/
theorem claim_C10_witness : (0 : ℚ) ≤ 26 / 5 :=
  claim_C10_nonneg.2.1 (some "-5.2") (26 / 5) (by decide)

lemma mem_collapseWsAux {c : Char} (hc : isSpacePy c = false) :
    ∀ (l : List Char) (b : Bool), c ∈ l → c ∈ collapseWsAux b l := by
  intro l
  induction l with
  | nil => intro b h; exact absurd h (by simp)
  | cons x xs ih =>
    intro b h
    rcases List.mem_cons.mp h with rfl | hmem
    · simp [collapseWsAux, hc]
    · by_cases hx : isSpacePy x
      · rcases b with _ | _ <;>
          simp only [collapseWsAux, hx, if_true, Bool.false_eq_true, if_false] <;>
          [exact List.mem_cons_of_mem _ (ih true hmem); exact ih true hmem]
      · simp only [collapseWsAux, hx, Bool.false_eq_true, if_false]
        exact List.mem_cons_of_mem _ (ih false hmem)

lemma mem_dropWhile_of_not {p : Char → Bool} {c : Char} (hc : p c = false) :
    ∀ l : List Char, c ∈ l → c ∈ l.dropWhile p := by
  intro l
  induction l with
  | nil => intro h; exact absurd h (by simp)
  | cons x xs ih =>
    intro h
    by_cases hx : p x
    · simp only [List.dropWhile_cons, hx, if_true]
      rcases List.mem_cons.mp h with rfl | hm
      · rw [hx] at hc; exact absurd hc (by simp)
      · exact ih hm
    · simp only [List.dropWhile_cons, hx, Bool.false_eq_true, if_false]
      exact h

lemma mem_stripPy {c : Char} (hc : isSpacePy c = false) (l : List Char) (h : c ∈ l) :
    c ∈ stripPy l := by
  unfold stripPy
  have h1 : c ∈ l.dropWhile isSpacePy := mem_dropWhile_of_not hc l h
  have h2 : c ∈ (l.dropWhile isSpacePy).reverse := List.mem_reverse.mpr h1
  have h3 : c ∈ (l.dropWhile isSpacePy).reverse.dropWhile isSpacePy :=
    mem_dropWhile_of_not hc _ h2
  exact List.mem_reverse.mpr h3

lemma clean_text_ne_empty (txt : String) (hex : ∃ c ∈ txt.data, isSpacePy c = false) :
    clean_text txt ≠ "" := by
  obtain ⟨c, hmem, hc⟩ := hex
  have h1 : c ∈ collapseWs txt.data := mem_collapseWsAux hc txt.data false hmem
  have h2 : c ∈ stripPy (collapseWs txt.data) := mem_stripPy hc _ h1
  intro heq
  have hdata : stripPy (collapseWs txt.data) = [] := congrArg String.data heq
  rw [hdata] at h2
  exact absurd h2 (by simp)

lemma encodeLatin1_ne_nil (l : List Char) (hl : l ≠ []) (bs : List Nat)
    (h : encodeLatin1 l = some bs) : bs ≠ [] := by
  rcases l with _ | ⟨c, cs⟩
  · exact absurd rfl hl
  · unfold encodeLatin1 at h
    split at h
    · obtain ⟨a, -, rfl⟩ := Option.map_eq_some'.mp h
      simp
    · exact absurd h (by simp)

lemma utf8DecodeF_cons_ne_nil (fuel b : Nat) (rest : List Nat) (out : List Char)
    (h : utf8DecodeF fuel (b :: rest) = some out) : out ≠ [] := by
  cases fuel with
  | zero => exact absurd h (by simp [utf8DecodeF])
  | succ n =>
    simp only [utf8DecodeF] at h
    repeat' split at h
    all_goals first
      | (obtain ⟨a, -, rfl⟩ := Option.map_eq_some'.mp h; simp)
      | exact absurd h (by simp)

lemma utf8Decode_cons_ne_nil (b : Nat) (rest : List Nat) (out : List Char)
    (h : utf8Decode (b :: rest) = some out) : out ≠ [] :=
  utf8DecodeF_cons_ne_nil (b :: rest).length b rest out h

lemma fix_mojibake_ne_empty (s : String) (hs : s ≠ "") : fix_mojibake s ≠ "" := by
  unfold fix_mojibake
  rw [if_neg hs]
  rcases henc : encodeLatin1 s.data with _ | bs
  · simpa [henc] using hs
  · rcases hdec : utf8Decode bs with _ | out
    · simpa [henc, hdec] using hs
    · have hdata : s.data ≠ [] := by
        intro hnil
        apply hs
        have hmk : s = ⟨s.data⟩ := rfl
        rw [hmk, hnil]
      have hbs : bs ≠ [] := encodeLatin1_ne_nil s.data hdata bs henc
      rcases bs with _ | ⟨b, brest⟩
      · exact absurd rfl hbs
      · have hout := utf8Decode_cons_ne_nil b brest out hdec
        simp only [henc, hdec, Option.some_bind]
        intro hemp
        exact hout (congrArg String.data hemp)

lemma normText_ne_empty (txt : String) (hex : ∃ c ∈ txt.data, isSpacePy c = false) :
    normText txt ≠ "" :=
  fix_mojibake_ne_empty _ (clean_text_ne_empty txt hex)

/-- Claim C2 (amended): when the grammar fails, `parse_card_text` returns
the degraded record — empty model code, best-effort float and money parses
of the whole normalized text as area and price, every other numeric field
unset; `raw` always holds the normalized input, which is non-empty whenever
the input contains a non-whitespace character.  (As stated, the claim asked
for non-emptiness for every non-empty input; a whitespace-only input
normalizes to the empty string, see the counterexample.) -/
theorem claim_C2_fallback_invariant (txt : String) :
    ((parse_card_text txt).parse_ok = false →
      (parse_card_text txt).modelo = "" ∧
      (parse_card_text txt).area_m2 = parse_float (some (normText txt)) ∧
      (parse_card_text txt).precio_desde = parse_money_to_float (some (normText txt)) ∧
      (parse_card_text txt).moneda = none ∧
      (parse_card_text txt).unidades_disponibles = none ∧
      (parse_card_text txt).piso_min = none ∧
      (parse_card_text txt).piso_max = none ∧
      (parse_card_text txt).dormitorios = none ∧
      (parse_card_text txt).banos = none) ∧
    (parse_card_text txt).raw = some (normText txt) ∧
    ((∃ c ∈ txt.data, isSpacePy c = false) → (parse_card_text txt).raw ≠ some "") := by
  have hraw : (parse_card_text txt).raw = some (normText txt) := by
    unfold parse_card_text
    split <;> rfl
  refine ⟨?_, hraw, ?_⟩
  · intro hok
    rcases h : reSearch CARD_RE (normText txt).data with _ | g
    · rw [parse_card_text_of_none h]
      exact ⟨rfl, rfl, rfl, rfl, rfl, rfl, rfl, rfl, rfl⟩
    · rw [parse_card_text_of_some h] at hok
      exact absurd hok (by simp)
  · intro hex
    rw [hraw]
    intro heq
    exact normText_ne_empty txt hex (Option.some_inj.mp heq)

/-- Counterexample to claim C2 as stated: the single-space input is
non-empty, yet the recorded raw text is the empty string. -/
theorem claim_C2_counterexample :
    (" " : String) ≠ "" ∧ (parse_card_text " ").raw = some "" := by
  constructor
  · decide
  · decide

/-- Witness for the amended claim C2 at the one-letter input `x`. -/
theorem claim_C2_witness : (parse_card_text "x").raw ≠ some "" :=
  (claim_C2_fallback_invariant "x").2.2 ⟨'x', by decide, by decide⟩

/-- The captured `piso_max` group of the card match, if the grammar
matched. -/
def pisoMaxCap (txt : String) : Option (List Char) :=
  match reSearch CARD_RE (normText txt).data with
  | some g => getCap g gPisoMax
  | none => none

/-- Claim C7 (amended): for cards where the grammar fully matches, if no
`al <max>` clause was captured then `floor_max = floor_min`; when an explicit
`al <max>` clause was captured, `floor_max` is its numeral, with no ordering
guarantee against `floor_min` (the counterexample shows a matching card with
`floor_max < floor_min`). -/
theorem claim_C7_floor_default (txt : String) :
    ((parse_card_text txt).parse_ok = true → pisoMaxCap txt = none →
      (parse_card_text txt).piso_max = (parse_card_text txt).piso_min) ∧
    (∀ l : List Char, pisoMaxCap txt = some l →
      (parse_card_text txt).piso_max = some (digitsVal l)) := by
  rcases h : reSearch CARD_RE (normText txt).data with _ | g
  · constructor
    · intro hok
      rw [parse_card_text_of_none h] at hok
      exact absurd hok (by simp)
    · intro l hl
      simp only [pisoMaxCap, h] at hl
      exact absurd hl (by simp)
  · constructor
    · intro _ hcap
      simp only [pisoMaxCap, h] at hcap
      rw [parse_card_text_of_some h]
      dsimp only
      rw [hcap]
    · intro l hl
      simp only [pisoMaxCap, h] at hl
      rw [parse_card_text_of_some h]
      dsimp only
      rw [hl]

/-- A card whose floor clause is the inverted explicit range `Pisos 9 al 3`
(after backtracking the grammar reads `al 31` as maximum `3` followed by the
bedroom count `1`). -/
def cardTextRange : String :=
  "A1 unidad disponibleDesde S/ 5Modelo B2 m2Pisos 9 al 31 dorm1 baño"

/-- Counterexample to claim C7 as stated: the grammar fully matches this card
with an explicit range clause, yet `floor_max < floor_min` — the code never
checks the ordering. -/
theorem claim_C7_counterexample :
    (parse_card_text cardTextRange).parse_ok = true ∧
    pisoMaxCap cardTextRange = some ['3'] ∧
    (parse_card_text cardTextRange).piso_min = some 9 ∧
    (parse_card_text cardTextRange).piso_max = some 3 ∧
    ¬ (9 : Nat) ≤ 3 := by decide

/-- A single-floor card (`Piso 3`, no `al` clause). -/
def cardTextSingle : String :=
  "A1 unidad disponibleDesde S/ 5Modelo B2 m2Piso 31 dorm1 baño"

/-- Witness for the amended claim C7 on a single-floor card. -/
theorem claim_C7_witness :
    (parse_card_text cardTextSingle).piso_max = (parse_card_text cardTextSingle).piso_min :=
  (claim_C7_floor_default cardTextSingle).1 (by decide) (by decide)

/-- The card text of claim C1 (already mojibake-fixed). -/
def cardTextC1 : String :=
  "PlanoTorre Nápoles27 unidades disponiblesDesde S/ 327,550Modelo AX0157.04 m²Pisos 2 al 282 dorms.2 baños"

/-- Claim C1: evaluating the parser at the claim's input.  The match
succeeds and units, price, currency, floors, bedrooms and bathrooms all come
out as the claim states, but the greedy model-code token `[A-Za-z0-9\-_]+`
also swallows the leading digits of the area (capturing `AX0157`, not
`AX01`), leaving `.04` for the area group, which the float parser reads as
`4`; the repository's own test asserts `modelo == "AX01"` on this card. -/
theorem claim_C1_card_eval :
    parse_card_text cardTextC1 =
      { modelo := "AX0157", area_m2 := some 4, precio_desde := some 327550,
        moneda := some "S/", unidades_disponibles := some 27,
        piso_min := some 2, piso_max := some 28, dormitorios := some 2,
        banos := some 2, raw := some cardTextC1, parse_ok := true } := by decide

/-- The card text of claim C3, which carries no project-name text before the
units clause. -/
def cardTextC3 : String :=
  "1 unidad disponibleDesde S/ 271,441Modelo A-20944.63 m²Piso 21 dorms.1 baño"

lemma cardTextC3_norm : normText cardTextC3 = cardTextC3 := by decide

lemma cardTextC3_search : reSearch CARD_RE cardTextC3.data = none := by decide

/-- Counterexample to claim C3: on the claim's input the grammar does not
match at all (the pattern requires at least one character of project-name
text before the units clause), so no model code `A-209` is produced. -/
theorem claim_C3_counterexample :
    (parse_card_text cardTextC3).parse_ok = false ∧
    (parse_card_text cardTextC3).modelo ≠ "A-209" := by
  have h : reSearch CARD_RE (normText cardTextC3).data = none := by
    rw [cardTextC3_norm]; exact cardTextC3_search
  rw [parse_card_text_of_none h]
  exact ⟨rfl, by decide⟩

/-- Claim C3 (amended): on the claim's input the grammar fails, so
`parse_card_text` returns the degraded record — parse failure, empty model
code, best-effort area and price `1` (the leading unit count of the raw
text), and currency, units, floors, bedrooms, bathrooms all unset. -/
theorem claim_C3_card_eval :
    parse_card_text cardTextC3 =
      { modelo := "", area_m2 := some 1, precio_desde := some 1, moneda := none,
        unidades_disponibles := none, piso_min := none, piso_max := none,
        dormitorios := none, banos := none, raw := some cardTextC3,
        parse_ok := false } := by
  have h : reSearch CARD_RE (normText cardTextC3).data = none := by
    rw [cardTextC3_norm]; exact cardTextC3_search
  rw [parse_card_text_of_none h, cardTextC3_norm]
  decide

lemma firstSelTexts_eq_none (page : ExtractPage) :
    ∀ sels : List String, (∀ sel ∈ sels, (page.select sel).length < 2) →
      firstSelTexts page sels = none := by
  intro sels
  induction sels with
  | nil => intro _; rfl
  | cons sel rest ih =>
    intro h
    have hlen := h sel (by simp)
    have hcond : ¬ (page.select sel ≠ [] ∧ 2 ≤ (page.select sel).length) := by
      rintro ⟨-, hge⟩
      omega
    simp only [firstSelTexts, if_neg hcond]
    exact ih (fun x hx => h x (by simp [hx]))

lemma mem_of_mem_dedupeKeep :
    ∀ (bs seen : List String) (t : String), t ∈ dedupeKeep seen bs → t ∈ bs := by
  intro bs
  induction bs with
  | nil => intro seen t ht; simp [dedupeKeep] at ht
  | cons b rest ih =>
    intro seen t ht
    by_cases hb : seen.contains b
    · rw [dedupeKeep, if_pos hb] at ht
      exact List.mem_cons_of_mem _ (ih seen t ht)
    · rw [dedupeKeep, if_neg hb] at ht
      rcases List.mem_cons.mp ht with rfl | hm
      · exact List.mem_cons_self _ _
      · exact List.mem_cons_of_mem _ (ih (b :: seen) t hm)

lemma dedupeKeep_sublist :
    ∀ (bs seen : List String), (dedupeKeep seen bs).Sublist bs := by
  intro bs
  induction bs with
  | nil => intro seen; simp [dedupeKeep]
  | cons b rest ih =>
    intro seen
    by_cases hb : seen.contains b
    · rw [dedupeKeep, if_pos hb]
      exact (ih seen).cons b
    · rw [dedupeKeep, if_neg hb]
      exact (ih (b :: seen)).cons₂ b

lemma dedupeKeep_fresh_nodup :
    ∀ (bs seen : List String),
      (∀ t ∈ dedupeKeep seen bs, seen.contains t = false) ∧
        (dedupeKeep seen bs).Nodup := by
  intro bs
  induction bs with
  | nil => intro seen; simp [dedupeKeep]
  | cons b rest ih =>
    intro seen
    by_cases hb : seen.contains b
    · rw [dedupeKeep, if_pos hb]
      exact ih seen
    · rw [dedupeKeep, if_neg hb]
      have ihb := ih (b :: seen)
      constructor
      · intro t ht
        rcases List.mem_cons.mp ht with rfl | hm
        · exact Bool.eq_false_iff.mpr hb
        · have := ihb.1 t hm
          have hcons : (b :: seen).contains t = ((t == b) || seen.contains t) := rfl
          rw [hcons] at this
          exact (Bool.or_eq_false_iff.mp this).2
      · refine List.nodup_cons.mpr ⟨?_, ihb.2⟩
        intro hbmem
        have := ihb.1 b hbmem
        have hcons : (b :: seen).contains b = ((b == b) || seen.contains b) := rfl
        rw [hcons] at this
        simp at this

lemma mem_dedupeKeep_of_mem :
    ∀ (bs seen : List String) (t : String), t ∈ bs → seen.contains t = false →
      t ∈ dedupeKeep seen bs := by
  intro bs
  induction bs with
  | nil => intro seen t ht _; exact absurd ht (by simp)
  | cons b rest ih =>
    intro seen t ht hseen
    by_cases hb : seen.contains b
    · rw [dedupeKeep, if_pos hb]
      rcases List.mem_cons.mp ht with rfl | hm
      · rw [hseen] at hb; exact absurd hb (by simp)
      · exact ih seen t hm hseen
    · rw [dedupeKeep, if_neg hb]
      by_cases htb : t = b
      · subst htb; exact List.mem_cons_self _ _
      · rcases List.mem_cons.mp ht with rfl | hm
        · exact absurd rfl htb
        · refine List.mem_cons_of_mem _ (ih (b :: seen) t hm ?_)
          have hcons : (b :: seen).contains t = ((t == b) || seen.contains t) := rfl
          rw [hcons, hseen, beq_eq_false_iff_ne.mpr htb]
          rfl

/-- Claim C8: when no structural selector yields at least two elements
(zero or one matches included), `extract_card_texts` falls through to the
keyword scan: every returned text contains the model keyword, the
starting-from keyword and a measurement-unit token (plain or
mojibake-corrupted); exact duplicates are removed keeping first-seen order
(the result is a duplicate-free subsequence of the kept container texts that
still contains each of them); and the result is empty when nothing matches.
The embedded function is total, so it cannot raise. -/
theorem claim_C8_extract_fallback (page : ExtractPage)
    (h : ∀ sel ∈ cardSelectors, (page.select sel).length < 2) :
    extract_card_texts page =
      dedupeKeep [] (page.containers.filter (fun txt => !(txt == "") && cardKeyword txt)) ∧
    (∀ t ∈ extract_card_texts page,
      subStr "Modelo" t = true ∧ subStr "Desde" t = true ∧
        (subStr "m" t = true ∨ subStr "m²" t = true ∨ subStr "mÂ²" t = true)) ∧
    (extract_card_texts page).Nodup ∧
    (extract_card_texts page).Sublist
      (page.containers.filter (fun txt => !(txt == "") && cardKeyword txt)) ∧
    (∀ t ∈ page.containers.filter (fun txt => !(txt == "") && cardKeyword txt),
      t ∈ extract_card_texts page) ∧
    ((∀ t ∈ page.containers, ¬ ((!(t == "") && cardKeyword t) = true)) →
      extract_card_texts page = []) := by
  have hext : extract_card_texts page =
      dedupeKeep [] (page.containers.filter (fun txt => !(txt == "") && cardKeyword txt)) := by
    unfold extract_card_texts
    rw [firstSelTexts_eq_none page cardSelectors h]
  refine ⟨hext, ?_, ?_, ?_, ?_, ?_⟩
  · intro t ht
    rw [hext] at ht
    have hmem := mem_of_mem_dedupeKeep _ _ _ ht
    have hkeep := (List.mem_filter.mp hmem).2
    rw [Bool.and_eq_true] at hkeep
    have hkw := hkeep.2
    unfold cardKeyword at hkw
    rw [Bool.and_eq_true, Bool.and_eq_true] at hkw
    obtain ⟨⟨hm, hd⟩, h2⟩ := hkw
    refine ⟨hm, hd, ?_⟩
    rw [Bool.or_eq_true, Bool.or_eq_true] at h2
    rcases h2 with (ha | hb) | hc
    · exact Or.inl ha
    · exact Or.inr (Or.inl hb)
    · exact Or.inr (Or.inr hc)
  · rw [hext]
    exact (dedupeKeep_fresh_nodup _ []).2
  · rw [hext]
    exact dedupeKeep_sublist _ []
  · intro t ht
    rw [hext]
    exact mem_dedupeKeep_of_mem _ [] t ht rfl
  · intro hnone
    have hfil : page.containers.filter (fun txt => !(txt == "") && cardKeyword txt) = [] :=
      List.filter_eq_nil_iff.mpr hnone
    rw [hext, hfil]
    rfl

/-- A structureless page whose containers hold one keyword block twice. -/
def samplePage : ExtractPage :=
  { select := fun _ => []
    containers := ["Modelo A Desde S/ 1 m2", "", "Modelo A Desde S/ 1 m2", "otro"] }

/-- Witness for claim C8: on the sample page the fallback scan keeps the one
matching block once. -/
theorem claim_C8_witness :
    extract_card_texts samplePage = ["Modelo A Desde S/ 1 m2"] :=
  (claim_C8_extract_fallback samplePage
    (fun sel _ => by simp [samplePage])).1.trans (by decide)

lemma findFirstText_ok (ops : PageOps)
    (hsel : ∀ sel, ∃ v, ops.selectOneText sel = .ok v) :
    ∀ sels : List String, ∃ r, findFirstText ops sels = .ok r := by
  intro sels
  induction sels with
  | nil => exact ⟨none, rfl⟩
  | cons sel rest ih =>
    obtain ⟨v, hv⟩ := hsel sel
    rcases v with _ | t
    · obtain ⟨r, hr⟩ := ih
      refine ⟨r, ?_⟩
      rw [findFirstText, hv]
      exact hr
    · refine ⟨some t, ?_⟩
      rw [findFirstText, hv]

/-- Claim C9: the project parser surfaces exactly one checked failure kind:
whatever sub-operation fails, the result is a single `ParseError` embedding
the original message; and when every sub-operation succeeds — absent
selectors, empty page text and zero cards included — parsing returns a
project record instead of failing. -/
theorem claim_C9_parse_error_wrapping (ops : PageOps) :
    ((∃ p, nexoParse ops = .ok p) ∨
      (∃ e, nexoParseBody ops = .error e ∧
        nexoParse ops = .error ⟨"Error parsing Nexo: " ++ e⟩)) ∧
    ((∀ sel, ∃ v, ops.selectOneText sel = .ok v) →
      (∃ t0, ops.pageText = .ok t0) → (∃ c, ops.cardTexts = .ok c) →
      ∃ p, nexoParse ops = .ok p) := by
  constructor
  · rcases hb : nexoParseBody ops with e | p
    · right
      refine ⟨e, rfl, ?_⟩
      unfold nexoParse
      rw [hb]
    · left
      refine ⟨p, ?_⟩
      unfold nexoParse
      rw [hb]
  · intro hsel hpage hcards
    obtain ⟨t0, ht⟩ := hpage
    obtain ⟨c, hc⟩ := hcards
    obtain ⟨r1, h1⟩ := findFirstText_ok ops hsel ["h1", "h1 span", ".project-title", ".titulo"]
    obtain ⟨r2, h2⟩ := findFirstText_ok ops hsel
      ["[data-testid=\x27project-address\x27]", ".direccion", ".address", ".project-address"]
    refine ⟨{ nombre := r1.map (fun n => normText n)
              direccion := r2.map (fun d => normText d)
              precio_desde := (desdePrice (normText t0)).2
              moneda := (desdePrice (normText t0)).1
              tipologias := c.map parse_card_text }, ?_⟩
    unfold nexoParse nexoParseBody
    rw [h1, h2, ht, hc]

/-- A page view where every selector finds nothing, the page text is empty,
and no cards are present. -/
def emptyPageOps : PageOps :=
  { selectOneText := fun _ => .ok none
    pageText := .ok ""
    cardTexts := .ok [] }

/-- Witness for claim C9: the degenerate page parses without failure. -/
theorem claim_C9_witness : ∃ p, nexoParse emptyPageOps = .ok p :=
  (claim_C9_parse_error_wrapping emptyPageOps).2
    (fun _ => ⟨none, rfl⟩) ⟨"", rfl⟩ ⟨[], rfl⟩

end Inmobiliaria
